import Mathlib

/-!
Verification of the apigen front end (src/api_parser.rs) against its
natural-language specification.  The Rust code is shallowly embedded:
pure functions become Lean functions, the imperative chunk walk becomes a
fold over an explicit state, u64 arithmetic is `Nat` with `% 2^64` where
the source can wrap (release-mode semantics), and panics are modelled as
`Option.none` where a claim is about them.  The grammar engine (pest) is
external to the repository: parse-tree nodes are embedded as inductive
types whose constructors mirror the grammar rule tags that the walkers
match on.
-/

namespace Apigen

/-- 2^64, the modulus of Rust u64 arithmetic. -/
def U64 : Nat := 18446744073709551616

/-- u64::MAX, used by the source as the "unassigned" sentinel for enum values. -/
def U64MAX : Nat := 18446744073709551615

/-- PRMITIVE_TYPES from api_parser.rs. -/
def PRMITIVE_TYPES : List String :=
  ["void", "i8", "u8", "i16", "u16", "i32", "u32", "i64", "u64", "bool", "f32", "f64"]

/-- VariableType from api_parser.rs. -/
inductive VariableType where
  | None
  | SelfType
  | Enum
  | Regular
  | Str
  | Primitive
deriving DecidableEq

/-- ArrayType from api_parser.rs. -/
inductive ArrayType where
  | Unsized
  | SizedArray (size : String)
deriving DecidableEq

/-- TypeModifier from api_parser.rs. -/
inductive TypeModifier where
  | None
  | ConstPointer
  | MutPointer
  | Reference
deriving DecidableEq

/-- EnumType from api_parser.rs. -/
inductive EnumType where
  | Regular
  | Bitflags
deriving DecidableEq

/-- Variable from api_parser.rs.  Field order follows the Rust struct. -/
structure Variable where
  doc_comments : List String
  def_file : String
  name : String
  vtype : VariableType
  type_name : String
  default_value : String
  enum_type : EnumType
  array : Option ArrayType
  type_modifier : TypeModifier
  optional : Bool
deriving DecidableEq

/-- Default::default() for Variable, from api_parser.rs. -/
def Variable.default : Variable :=
  { name := "", doc_comments := [], def_file := "", vtype := VariableType.None
    type_name := "", enum_type := EnumType.Regular, default_value := ""
    array := Option.none, optional := false, type_modifier := TypeModifier.None }

/-- FunctionType from api_parser.rs. -/
inductive FunctionType where
  | Regular
  | Static
  | Manual
deriving DecidableEq

/-- Function from api_parser.rs. -/
structure Function where
  doc_comments : List String
  def_file : String
  name : String
  function_args : List Variable
  return_val : Option Variable
  func_type : FunctionType
deriving DecidableEq

/-- Default::default() for Function, from api_parser.rs. -/
def Function.default : Function :=
  { doc_comments := [], name := "", def_file := "", function_args := []
    return_val := Option.none, func_type := FunctionType.Regular }

/-- Struct from api_parser.rs (also used for unions).  The source field
`variables` is spelled `vars` here because `variables` is a reserved word
in Lean 4. -/
structure Struct where
  doc_comments : List String
  name : String
  def_file : String
  vars : List Variable
  functions : List Function
  attributes : List String
  traits : List String
  derives : List String
deriving DecidableEq

/-- Struct::default(). -/
def Struct.default : Struct :=
  { doc_comments := [], name := "", def_file := "", vars := []
    functions := [], attributes := [], traits := [], derives := [] }

/-- EnumEntry from api_parser.rs; `value` is a u64 (Nat < 2^64). -/
structure EnumEntry where
  doc_comments : List String
  name : String
  value : Nat
deriving DecidableEq

/-- Enum from api_parser.rs. -/
structure Enum where
  doc_comments : List String
  name : String
  def_file : String
  enum_type : EnumType
  flags_name : String
  entries : List EnumEntry
deriving DecidableEq

/-- Enum::default(). -/
def Enum.default : Enum :=
  { doc_comments := [], name := "", def_file := "", enum_type := EnumType.Regular
    flags_name := "", entries := [] }

/-- The source's `Type` struct (a doc-commented type alias); `Type` is a
Lean keyword so the embedding calls it TypeDef. -/
structure TypeDef where
  doc_comments : List String
  var : Variable
deriving DecidableEq

/-- TypeDef default (Type::default() in the source). -/
def TypeDef.default : TypeDef :=
  { doc_comments := [], var := Variable.default }

/-- Const from api_parser.rs. -/
structure Const where
  doc_comments : List String
  name : String
  value : String
deriving DecidableEq

/-- Const::default(). -/
def Const.default : Const := { doc_comments := [], name := "", value := "" }

/-- ApiDef from api_parser.rs. -/
structure ApiDef where
  filename : String
  base_filename : String
  mods : List String
  callbacks : List Function
  structs : List Struct
  enums : List Enum
  types : List TypeDef
  unions : List Struct
  consts : List Const
deriving DecidableEq

/-- ApiDef::default(). -/
def ApiDef.default : ApiDef :=
  { filename := "", base_filename := "", mods := [], callbacks := []
    structs := [], enums := [], types := [], unions := [], consts := [] }

/-- is_primitve from api_parser.rs (the source spells it without the second i). -/
def is_primitve (name : String) : Bool :=
  PRMITIVE_TYPES.any (fun type_name => type_name == name)

/-! ## Enum representation classifier (ApiParser::determine_enum_type) -/

/-- The loop body of ApiParser::check_sequential: `current` starts at the
first entry's value and is compared against every entry, incremented by
one (u64, wrapping) after each. -/
def seq_loop (current : Nat) : List EnumEntry → Bool
  | [] => true
  | e :: rest =>
    if current ≠ e.value then false else seq_loop ((current + 1) % U64) rest

/-- ApiParser::check_sequential. -/
def check_sequential (enum_def : Enum) : Bool :=
  match enum_def.entries with
  | [] => false
  | e0 :: rest => seq_loop e0.value (e0 :: rest)

/-- The loop of ApiParser::check_overlapping: a growing set of seen values
(the source uses a HashSet; only membership is consulted, so a list is an
exact model). -/
def overlap_loop (seen : List Nat) : List EnumEntry → Bool
  | [] => false
  | e :: rest =>
    if seen.contains e.value then true else overlap_loop (e.value :: seen) rest

/-- ApiParser::check_overlapping. -/
def check_overlapping (enum_def : Enum) : Bool :=
  overlap_loop [] enum_def.entries

/-- u64::is_power_of_two from the Rust standard library: true iff the
value equals 2^k for some k (k < 64 suffices for u64 values). -/
def is_power_of_two (v : Nat) : Bool :=
  (List.range 64).any (fun k => v == 2 ^ k)

/-- ApiParser::check_power_of_two.  The source computes
`power_of_two_count as f32 / entries.len() as f32 > 0.5`; the embedding
uses the exact rational comparison `2 * count > len`, which agrees with
the correctly-rounded f32 computation for every list of fewer than 2^24
entries (counts below 2^24 are exact in f32 and the quotient is correctly
rounded, so the strict comparison against 0.5 cannot flip). -/
def check_power_of_two (enum_def : Enum) : Bool :=
  if enum_def.entries.isEmpty then false
  else
    2 * (enum_def.entries.filter (fun e => is_power_of_two e.value)).length >
      enum_def.entries.length

/-- ApiParser::determine_enum_type. -/
def determine_enum_type (enum_def : Enum) : EnumType :=
  let sequential := check_sequential enum_def
  let overlapping := check_overlapping enum_def
  let power_of_two := check_power_of_two enum_def
  if sequential && !overlapping then EnumType.Regular
  else if power_of_two || overlapping then EnumType.Bitflags
  else EnumType.Regular

/-- Modelled from the spec (§4.3 decision rule), for comparison with
`determine_enum_type`: Regular when the values form a single unbroken run
(each value equals the previous plus one, in plain arithmetic) with no
duplicate; otherwise Bitflags exactly when a value is duplicated or the
power-of-two fraction strictly exceeds one half; otherwise Regular. -/
def spec_enum_classifier (enum_def : Enum) : EnumType :=
  let vals := enum_def.entries.map (fun e => e.value)
  if List.Chain' (fun x y => y = x + 1) vals ∧ vals.Nodup then EnumType.Regular
  else if ¬ vals.Nodup ∨
      2 * (vals.filter (fun v => is_power_of_two v)).length > vals.length then
    EnumType.Bitflags
  else EnumType.Regular

/-! ## Enum entry collection and auto-value assignment
(ApiParser::fill_field_list_enum, ApiParser::get_enum) -/

/-- Children of a Rule::enum_type node.  The source extracts the literal
of a Rule::enum_assign child as a string and parses it with
str::parse::<u64>() (panicking on failure); the embedding carries the
parsed u64 value (< 2^64) directly, the decimal-numeral parsing being
standard-library code outside this repository's logic. -/
inductive EnumTypeChild where
  | name (s : String)
  | enum_assign (value : Nat)
  | other
deriving DecidableEq

/-- Children of the fieldlist node of an enumdef: each Rule::field wraps a
Rule::enum_type node (the source takes the field's first inner node and
checks its rule), plus doc-comment lines. -/
inductive EnumFieldChild where
  | field (children : List EnumTypeChild)
  | doc_comment (s : String)
  | other
deriving DecidableEq

/-- ApiParser::get_enum: name from the name child, value from the
enum_assign child when present, otherwise the u64::MAX sentinel
("Reassigned at patchup"). -/
def get_enum (doc_comments : List String) (children : List EnumTypeChild) : EnumEntry :=
  let step := fun (acc : String × Option Nat) (c : EnumTypeChild) =>
    match c with
    | EnumTypeChild.name s => (s, acc.2)
    | EnumTypeChild.enum_assign v => (acc.1, some v)
    | EnumTypeChild.other => acc
  let acc := children.foldl step ("", Option.none)
  match acc.2 with
  | some value => { doc_comments := doc_comments, name := acc.1, value := value }
  | Option.none => { doc_comments := doc_comments, name := acc.1, value := U64MAX }

/-- The entry-collection loop of ApiParser::fill_field_list_enum,
maintaining the pending doc-comment buffer.  Doc-comment chunks are
stripped of their 4-character marker prefix (the source slices bytes
`[4..]`; the embedding drops 4 characters, identical for the ASCII
markers of the DSL). -/
def collect_enum_entries (doc_comments : List String) : List EnumFieldChild → List EnumEntry
  | [] => []
  | EnumFieldChild.field cs :: rest =>
    get_enum doc_comments cs :: collect_enum_entries [] rest
  | EnumFieldChild.doc_comment s :: rest =>
    collect_enum_entries (doc_comments ++ [s.drop 4]) rest
  | EnumFieldChild.other :: rest => collect_enum_entries doc_comments rest

/-- The value patch-up loop of ApiParser::fill_field_list_enum: entries
holding the u64::MAX sentinel receive the counter; the counter advances
to value + 1 after every entry (u64 arithmetic, wrapping). -/
def assign_loop (counter : Nat) : List EnumEntry → List EnumEntry
  | [] => []
  | e :: rest =>
    if e.value = U64MAX then
      { e with value := counter } :: assign_loop ((counter + 1) % U64) rest
    else
      e :: assign_loop ((e.value + 1) % U64) rest

/-- ApiParser::fill_field_list_enum: collect entries, then assign values
with the counter starting at 0. -/
def fill_field_list_enum (children : List EnumFieldChild) : List EnumEntry :=
  assign_loop 0 (collect_enum_entries [] children)

/-- Modelled from the spec (§4.3): "Value auto-assignment walks entries in
order, replacing the unassigned sentinel with `counter`, and after any
entry (assigned or not) sets `counter = value + 1`."  For comparison with
`assign_loop`. -/
def spec_assign_walk (counter : Nat) : List EnumEntry → List EnumEntry
  | [] => []
  | e :: rest =>
    let v := if e.value = U64MAX then counter else e.value
    { e with value := v } :: spec_assign_walk ((v + 1) % U64) rest

/-! ## Variable resolution (ApiParser::get_variable) -/

/-- Children of a Rule::default_val node: the source scans for the first
name_or_num or string literal. -/
inductive DefChild where
  | name_or_num (s : String)
  | string (s : String)
  | other
deriving DecidableEq

/-- Children of a Rule::array node. -/
inductive ArrChild where
  | vtype (s : String)
  | refexp
  | pointer_exp
  | const_ptr_exp
  | array_size (s : String)
  | other
deriving DecidableEq

/-- Children of a Rule::var node. -/
inductive VarChild where
  | name (s : String)
  | refexp
  | pointer_exp
  | const_ptr_exp
  | optional
  | vtype (s : String)
  | default_val (children : List DefChild)
  | array (children : List ArrChild)
  | other
deriving DecidableEq

/-- The rule tag stored in get_variable's local `vtype` register (it
starts at Rule::var and may be set to refexp/pointer_exp/const_ptr_exp). -/
inductive VRule where
  | var
  | refexp
  | pointer_exp
  | const_ptr_exp
deriving DecidableEq

/-- ApiParser::get_default_value: the first name_or_num or string literal
child wins (the source breaks out of the loop). -/
def get_default_value : List DefChild → String
  | [] => ""
  | DefChild.name_or_num s :: _ => s
  | DefChild.string s :: _ => s
  | DefChild.other :: rest => get_default_value rest

/-- The inner loop of ApiParser::get_variable over a Rule::array node's
children: may reset the type name and modifier rule, switches the array
shape to SizedArray when an array_size child appears (the variable's
array was already set to Unsized before this loop). -/
def array_scan (acc : VRule × String × Option ArrayType) :
    List ArrChild → VRule × String × Option ArrayType
  | [] => acc
  | ArrChild.vtype s :: rest => array_scan (acc.1, s, acc.2.2) rest
  | ArrChild.refexp :: rest => array_scan (VRule.refexp, acc.2.1, acc.2.2) rest
  | ArrChild.pointer_exp :: rest => array_scan (VRule.pointer_exp, acc.2.1, acc.2.2) rest
  | ArrChild.const_ptr_exp :: rest => array_scan (VRule.const_ptr_exp, acc.2.1, acc.2.2) rest
  | ArrChild.array_size s :: rest =>
    array_scan (acc.1, acc.2.1, some (ArrayType.SizedArray s)) rest
  | ArrChild.other :: rest => array_scan acc rest

/-- The child scan of ApiParser::get_variable: accumulates the rule
register, the raw type name, and the partial Variable. -/
def var_scan (acc : VRule × String × Variable) :
    List VarChild → VRule × String × Variable
  | [] => acc
  | VarChild.name s :: rest => var_scan (acc.1, acc.2.1, { acc.2.2 with name := s }) rest
  | VarChild.refexp :: rest => var_scan (VRule.refexp, acc.2.1, acc.2.2) rest
  | VarChild.pointer_exp :: rest => var_scan (VRule.pointer_exp, acc.2.1, acc.2.2) rest
  | VarChild.const_ptr_exp :: rest => var_scan (VRule.const_ptr_exp, acc.2.1, acc.2.2) rest
  | VarChild.optional :: rest =>
    var_scan (acc.1, acc.2.1, { acc.2.2 with optional := true }) rest
  | VarChild.vtype s :: rest => var_scan (acc.1, s, acc.2.2) rest
  | VarChild.default_val cs :: rest =>
    var_scan (acc.1, acc.2.1, { acc.2.2 with default_value := get_default_value cs }) rest
  | VarChild.array cs :: rest =>
    let r := array_scan (acc.1, acc.2.1, some ArrayType.Unsized) cs
    var_scan (r.1, r.2.1, { acc.2.2 with array := r.2.2 }) rest
  | VarChild.other :: rest => var_scan acc rest

/-- ApiParser::get_variable.  After the scan, classification is computed
from the accumulated raw type name, and the modifier from the rule
register; note the source maps Rule::const_ptr_exp to
TypeModifier::MutPointer (same arm as pointer_exp). -/
def get_variable (children : List VarChild) (doc_comments : List String) : Variable :=
  let acc := var_scan (VRule.var, "", { Variable.default with doc_comments := doc_comments })
    children
  let type_name := acc.2.1
  let var_type :=
    if type_name = "String" then VariableType.Str
    else if is_primitve type_name then VariableType.Primitive
    else VariableType.Regular
  let type_modifier :=
    match acc.1 with
    | VRule.pointer_exp => TypeModifier.MutPointer
    | VRule.const_ptr_exp => TypeModifier.MutPointer
    | VRule.refexp => TypeModifier.Reference
    | VRule.var => acc.2.2.type_modifier
  { acc.2.2 with type_name := type_name, vtype := var_type, type_modifier := type_modifier }

/-! ## Function resolution (ApiParser::get_function, get_variable_list) -/

/-- Children of a Rule::function node.  A varlist child carries its var
nodes; a retexp child is itself passed to get_variable. -/
inductive FnChild where
  | name (s : String)
  | manual_typ
  | static_typ
  | varlist (vars : List (List VarChild))
  | retexp (children : List VarChild)
  | other
deriving DecidableEq

/-- The implicit receiver prepended by ApiParser::get_variable_list. -/
def self_var : Variable :=
  { Variable.default with name := "self", vtype := VariableType.SelfType }

/-- ApiParser::get_variable_list: starts from the implicit self receiver
unless the function is static, then resolves each var node. -/
def get_variable_list (vars : List (List VarChild)) (is_static_func : Bool) : List Variable :=
  let start := if !is_static_func then [self_var] else []
  start ++ vars.map (fun v => get_variable v [])

/-- One step of ApiParser::get_function's child loop; the state is the
`is_static_func` flag together with the function under construction. -/
def get_function_step (acc : Bool × Function) (c : FnChild) : Bool × Function :=
  match c with
  | FnChild.name s => (acc.1, { acc.2 with name := s })
  | FnChild.manual_typ => (acc.1, { acc.2 with func_type := FunctionType.Manual })
  | FnChild.varlist vs =>
    (acc.1, { acc.2 with function_args := get_variable_list vs acc.1 })
  | FnChild.retexp cs =>
    (acc.1, { acc.2 with return_val := some (get_variable cs []) })
  | FnChild.static_typ => (true, { acc.2 with func_type := FunctionType.Static })
  | FnChild.other => acc

/-- ApiParser::get_function. -/
def get_function (children : List FnChild) (doc_comments : List String) : Function :=
  (children.foldl get_function_step
    (false, { Function.default with doc_comments := doc_comments })).2

/-- Children of a Rule::callbackdef chunk. -/
inductive CbChild where
  | function (children : List FnChild)
  | other
deriving DecidableEq

/-- ApiParser::fill_callback: the last Rule::function child resolved with
get_function wins (Function::default() if none). -/
def fill_callback (children : List CbChild) (doc_comments : List String) : Function :=
  children.foldl
    (fun acc c =>
      match c with
      | CbChild.function cs => get_function cs doc_comments
      | CbChild.other => acc)
    Function.default

/-! ## Struct building (ApiParser::fill_struct, fill_field_list) -/

/-- The declaration wrapped by a Rule::field node inside a struct's
fieldlist (the source reads the field's first inner node). -/
inductive FieldDecl where
  | var (children : List VarChild)
  | function (children : List FnChild)
  | other
deriving DecidableEq

/-- Children of a struct/union fieldlist node. -/
inductive FieldChild where
  | field (decl : FieldDecl)
  | doc_comment (s : String)
  | other
deriving DecidableEq

/-- ApiParser::fill_field_list: splits fields and functions in one pass,
carrying the doc-comment buffer; a doc-comment line is appended (minus
its 4-character marker) only when it is at least 4 bytes long. -/
def fill_field_list (doc_comments : List String) :
    List FieldChild → List Variable × List Function
  | [] => ([], [])
  | FieldChild.field (FieldDecl.var cs) :: rest =>
    let r := fill_field_list [] rest
    (get_variable cs doc_comments :: r.1, r.2)
  | FieldChild.field (FieldDecl.function cs) :: rest =>
    let r := fill_field_list [] rest
    (r.1, get_function cs doc_comments :: r.2)
  | FieldChild.field FieldDecl.other :: rest => fill_field_list doc_comments rest
  | FieldChild.doc_comment s :: rest =>
    if s.length ≥ 4 then fill_field_list (doc_comments ++ [s.drop 4]) rest
    else fill_field_list doc_comments rest
  | FieldChild.other :: rest => fill_field_list doc_comments rest

/-- Children of a Rule::structdef or Rule::uniondef chunk.  The
attributes/derive/traits nodes wrap a namelist whose strings the source
extracts with get_attrbutes/get_namelist_list; the embedding carries the
extracted string list directly. -/
inductive StructChild where
  | name (s : String)
  | attributes (names : List String)
  | derive (names : List String)
  | traits (names : List String)
  | fieldlist (children : List FieldChild)
  | other
deriving DecidableEq

/-- ApiParser::fill_struct. -/
def fill_struct (children : List StructChild) (doc_comments : List String)
    (def_file : String) : Struct :=
  children.foldl
    (fun acc c =>
      match c with
      | StructChild.name s => { acc with name := s }
      | StructChild.attributes ns => { acc with attributes := ns }
      | StructChild.derive ns => { acc with derives := ns }
      | StructChild.traits ns => { acc with traits := ns }
      | StructChild.fieldlist cs =>
        let r := fill_field_list [] cs
        { acc with vars := r.1, functions := r.2 }
      | StructChild.other => acc)
    { Struct.default with doc_comments := doc_comments, def_file := def_file }

/-! ## Top-level chunk walk (ApiParser::parse_string) -/

/-- Children of a Rule::moddef chunk. -/
inductive ModChild where
  | name (s : String)
  | other
deriving DecidableEq

/-- Children of a Rule::type_value chunk. -/
inductive TVChild where
  | var (children : List VarChild)
  | other
deriving DecidableEq

/-- Children of a Rule::const_value chunk. -/
inductive ConstChild where
  | name (s : String)
  | name_or_num (s : String)
  | raw_string (s : String)
  | other
deriving DecidableEq

/-- Children of a Rule::enumdef chunk.  The enum_flags node wraps a name
whose string the source extracts (unwrap of the first inner node); the
embedding carries that string. -/
inductive EnumDefChild where
  | name (s : String)
  | fieldlist (children : List EnumFieldChild)
  | enum_flags (s : String)
  | other
deriving DecidableEq

/-- One top-level chunk of a parsed file. -/
inductive Chunk where
  | structdef (children : List StructChild)
  | callbackdef (children : List CbChild)
  | moddef (children : List ModChild)
  | type_value (children : List TVChild)
  | const_value (children : List ConstChild)
  | doc_comment (s : String)
  | enumdef (children : List EnumDefChild)
  | uniondef (children : List StructChild)
  | other
deriving DecidableEq

/-- The enumdef branch of parse_string: builds the Enum from its children
and runs the representation classifier. -/
def build_enum (children : List EnumDefChild) (doc_comments : List String) : Enum :=
  let e := children.foldl
    (fun acc c =>
      match c with
      | EnumDefChild.name s => { acc with name := s }
      | EnumDefChild.fieldlist cs => { acc with entries := fill_field_list_enum cs }
      | EnumDefChild.enum_flags s => { acc with flags_name := s }
      | EnumDefChild.other => acc)
    { Enum.default with doc_comments := doc_comments }
  { e with enum_type := determine_enum_type e }

/-- One step of the chunk loop of ApiParser::parse_string; the state is
the ApiDef under construction together with the pending doc-comment
buffer `current_comments`.  Note the const_value branch: it neither reads
nor clears the buffer, and Const.doc_comments is never filled. -/
def chunk_step (acc : ApiDef × List String) (c : Chunk) : ApiDef × List String :=
  let api_def := acc.1
  let current_comments := acc.2
  match c with
  | Chunk.structdef cs =>
    ({ api_def with
        structs := api_def.structs ++
          [fill_struct cs current_comments api_def.base_filename] }, [])
  | Chunk.callbackdef cs =>
    ({ api_def with
        callbacks := api_def.callbacks ++
          [{ fill_callback cs current_comments with func_type := FunctionType.Static }] },
      [])
  | Chunk.moddef cs =>
    ({ api_def with
        mods := api_def.mods ++ cs.filterMap
          (fun m => match m with
            | ModChild.name s => some s
            | ModChild.other => Option.none) },
      current_comments)
  | Chunk.type_value cs =>
    let tv := cs.foldl
      (fun acc c =>
        match c with
        | TVChild.var vcs => { acc with var := get_variable vcs current_comments }
        | TVChild.other => acc)
      TypeDef.default
    ({ api_def with types := api_def.types ++ [tv] }, [])
  | Chunk.const_value cs =>
    let cv := cs.foldl
      (fun acc c =>
        match c with
        | ConstChild.name s => { acc with name := s }
        | ConstChild.name_or_num s => { acc with value := s }
        | ConstChild.raw_string s => { acc with value := s }
        | ConstChild.other => acc)
      Const.default
    ({ api_def with consts := api_def.consts ++ [cv] }, current_comments)
  | Chunk.doc_comment s => (api_def, current_comments ++ [s.drop 4])
  | Chunk.enumdef cs =>
    ({ api_def with enums := api_def.enums ++ [build_enum cs current_comments] }, [])
  | Chunk.uniondef cs =>
    ({ api_def with
        unions := api_def.unions ++
          [fill_struct cs current_comments api_def.base_filename] }, [])
  | Chunk.other => acc

/-- ApiParser::parse_string.  The filename and its stem (computed by the
source with std Path::file_stem) are taken as inputs; the walk itself is
the fold of chunk_step starting from ApiDef::default with the names set
and an empty doc-comment buffer. -/
def parse_string (filename base_filename : String) (chunks : List Chunk) : ApiDef :=
  (chunks.foldl chunk_step
    ({ ApiDef.default with filename := filename, base_filename := base_filename }, [])).1

/-! ## Cross-file linker (ApiParser::second_pass) -/

/-- Struct::has_attribute. -/
def Struct.has_attribute (s : Struct) (attrib : String) : Bool :=
  s.attributes.any (fun a => a == attrib)

/-- The key set of second_pass's `enum_def_file_type` map: every enum's
name, plus its flags name when nonempty.  The map's values (origin file
and representation) and its insertion order do not affect the pass, which
only tests key membership. -/
def enum_name_table (api_defs : List ApiDef) : List String :=
  api_defs.flatMap (fun d =>
    d.enums.flatMap (fun e =>
      e.name :: (if e.flags_name ≠ "" then [e.flags_name] else [])))

/-- The mutation applied by second_pass to one function argument: the
classification becomes Enum when the raw type name is in the enum table. -/
def upgrade_arg (table : List String) (v : Variable) : Variable :=
  if table.contains v.type_name then { v with vtype := VariableType.Enum } else v

/-- ApiParser::second_pass.  The source also builds a struct-name map and
a set of empty non-Handle structs, but both are local to the pass and are
not consulted by (nor do they affect) the mutation loop, which only
touches the arguments of struct functions. -/
def second_pass (api_defs : List ApiDef) : List ApiDef :=
  let table := enum_name_table api_defs
  api_defs.map (fun d =>
    { d with
        structs := d.structs.map (fun s =>
          { s with
              functions := s.functions.map (fun f =>
                { f with function_args := f.function_args.map (upgrade_arg table) }) }) })

/-! ## C-ABI renderers (impl Variable / impl Function) -/

/-- Variable::get_c_primitive_type.  The source tests
`type_name.starts_with('u')`; the embedding tests the first character
directly. -/
def Variable.get_c_primitive_type (v : Variable) : String :=
  let tname := v.type_name
  if tname = "f32" then "float"
  else if tname = "bool" then "bool"
  else if tname = "f64" then "double"
  else if tname = "i32" then "int"
  else if tname = "void" then "void"
  else if v.type_name.data.head? = some 'u' then "uint" ++ tname.drop 1 ++ "_t"
  else "int" ++ tname.drop 1 ++ "_t"

/-- Variable::get_c_variable. -/
def Variable.get_c_variable (v : Variable) (self_type pfx : String) : String :=
  let output := ""
  let output := output ++
    (match v.type_modifier with
     | TypeModifier.ConstPointer => "const "
     | TypeModifier.Reference => "const "
     | _ => "")
  let output := output ++
    (match v.vtype with
     | VariableType.None => "void"
     | VariableType.SelfType => "struct " ++ pfx ++ self_type
     | VariableType.Regular => pfx ++ v.type_name
     | VariableType.Enum => pfx ++ v.type_name
     | VariableType.Str => "const char*"
     | VariableType.Primitive => v.get_c_primitive_type)
  let output := output ++
    (match v.type_modifier with
     | TypeModifier.ConstPointer => "*"
     | TypeModifier.MutPointer => "*"
     | TypeModifier.Reference => "*"
     | TypeModifier.None => "")
  output

/-- The strings one iteration of Function::get_c_separated_arguments's
loop pushes for one argument: one string per argument, except Unsized
arrays which push a pointer argument and a uint64_t size argument.  Str
arguments are matched before the array shape is examined. -/
def c_arg_pieces (self_name pfx : String) (arg : Variable) : List String :=
  match arg.vtype with
  | VariableType.Str => ["const char* " ++ arg.name]
  | _ =>
    match arg.array with
    | Option.none =>
      if arg.name ≠ "va_args" ∧ arg.type_name ≠ "VA_ARGS" then
        [arg.get_c_variable self_name pfx ++ " " ++ arg.name]
      else
        ["..."]
    | some ArrayType.Unsized =>
      [arg.get_c_variable self_name pfx ++ "* " ++ arg.name,
        "uint64_t " ++ arg.name ++ "_size"]
    | some (ArrayType.SizedArray size) =>
      [arg.get_c_variable self_name pfx ++ " " ++ arg.name ++ "[" ++ size ++ "]"]

/-- The loop body of Function::get_c_separated_arguments: pushes the
argument's pieces onto the accumulated list. -/
def c_arg_step (self_name pfx : String) (args : List String) (arg : Variable) :
    List String :=
  args ++ c_arg_pieces self_name pfx arg

/-- Function::get_c_separated_arguments. -/
def Function.get_c_separated_arguments (f : Function) (self_name pfx : String) :
    List String :=
  f.function_args.foldl (c_arg_step self_name pfx) []

/-- Variable::get_c_struct_variable. -/
def Variable.get_c_struct_variable (v : Variable) (pfx : String) : String :=
  let output := "    " ++ v.get_c_variable "" pfx
  match v.array with
  | Option.none => output ++ " " ++ v.name ++ ";"
  | some ArrayType.Unsized =>
    output ++ "* " ++ v.name ++ ";\n" ++ "    uint64_t " ++ v.name ++ "_size;"
  | some (ArrayType.SizedArray size) => output ++ " " ++ v.name ++ "[" ++ size ++ "];"

/-! ## Manual C block (ApiDef::write_c_manual) -/

/-- Leftmost, non-overlapping find-and-replace on character lists,
modelling Rust's str::replace.  The fuel is the length of the subject
list: every recursive step consumes at least one character when the
pattern is nonempty. -/
def replace_fuel (pat rep : List Char) : Nat → List Char → List Char
  | _, [] => []
  | 0, s => s
  | fuel + 1, c :: rest =>
    if pat.isPrefixOf (c :: rest) then
      rep ++ replace_fuel pat rep fuel (rest.drop (pat.length - 1))
    else
      c :: replace_fuel pat rep fuel rest

/-- str::replace(pattern, replacement).  The source only calls it with
the nonempty pattern "{CPrefix}"; an empty pattern is returned unchanged
here (Rust would interleave the replacement at every boundary). -/
def str_replace (s pat rep : String) : String :=
  if pat.data = [] then s else ⟨replace_fuel pat.data rep.data s.data.length s.data⟩

/-- The per-const loop of ApiDef::write_c_manual, accumulating the bytes
written to `out`.  A const named "_MANUAL_C" has "{CPrefix}" substituted
and is written surrounded by newlines with its first and last character
removed (the source slices bytes `t[1..t.len()-1]`; characters and bytes
agree on the ASCII manual blocks).  When the substituted text has fewer
than two characters the slice bound computation panics, modelled as
Option.none. -/
def write_c_manual_loop (pfx : String) (acc : List Char) :
    List Const → Option String
  | [] => some ⟨acc⟩
  | c :: rest =>
    if c.name ≠ "_MANUAL_C" then write_c_manual_loop pfx acc rest
    else
      let t := str_replace c.value "{CPrefix}" pfx
      if t.data.length < 2 then Option.none
      else
        write_c_manual_loop pfx
          (acc ++ '\n' :: ((t.data.drop 1).dropLast ++ ['\n'])) rest

/-- ApiDef::write_c_manual. -/
def ApiDef.write_c_manual (d : ApiDef) (pfx : String) : Option String :=
  write_c_manual_loop pfx [] d.consts

/-- Whether a function node's child list contains the static marker
(Rule::static_typ). -/
def has_static_marker (children : List FnChild) : Bool :=
  children.any (fun c =>
    match c with
    | FnChild.static_typ => true
    | _ => false)

/-- Whether a function node's child list contains no parameter list
(Rule::varlist). -/
def no_varlist (children : List FnChild) : Bool :=
  children.all (fun c =>
    match c with
    | FnChild.varlist _ => false
    | _ => true)

/-! ## Theorems -/

/-- Record eta for EnumEntry: updating value with itself is the identity. -/
theorem enum_entry_value_eta (e : EnumEntry) : { e with value := e.value } = e := by
  cases e
  rfl

/-- The assignment loop agrees with the spec's walk for every starting
counter. -/
theorem assign_loop_eq_spec_walk (counter : Nat) (l : List EnumEntry) :
    assign_loop counter l = spec_assign_walk counter l := by
  induction l generalizing counter with
  | nil => rfl
  | cons e rest ih =>
    by_cases h : e.value = U64MAX
    · simp only [assign_loop, spec_assign_walk, if_pos h, ih]
    · simp only [assign_loop, spec_assign_walk, if_neg h, ih, enum_entry_value_eta]

/-- C2: enum auto-value assignment walks the entries in order with a
counter starting at 0, replaces the unassigned sentinel with the counter,
and after every entry (explicit or just assigned) continues with that
entry's value plus one; entries [A, B=5, C] end up as [0, 5, 6]. -/
theorem claim_C2_auto_value_assignment :
    (∀ (counter : Nat) (l : List EnumEntry),
      assign_loop counter l = spec_assign_walk counter l) ∧
    fill_field_list_enum
        [EnumFieldChild.field [EnumTypeChild.name "A"],
         EnumFieldChild.field [EnumTypeChild.name "B", EnumTypeChild.enum_assign 5],
         EnumFieldChild.field [EnumTypeChild.name "C"]] =
      assign_loop 0
        (collect_enum_entries []
          [EnumFieldChild.field [EnumTypeChild.name "A"],
           EnumFieldChild.field [EnumTypeChild.name "B", EnumTypeChild.enum_assign 5],
           EnumFieldChild.field [EnumTypeChild.name "C"]]) ∧
    (fill_field_list_enum
        [EnumFieldChild.field [EnumTypeChild.name "A"],
         EnumFieldChild.field [EnumTypeChild.name "B", EnumTypeChild.enum_assign 5],
         EnumFieldChild.field [EnumTypeChild.name "C"]]).map
        (fun e => (e.name, e.value)) =
      [("A", 0), ("B", 5), ("C", 6)] :=
  ⟨assign_loop_eq_spec_walk, rfl, by decide⟩

/-- C3 counterexample: an explicit value 2^64 - 2 followed by an entry
with no explicit value finalizes that entry at exactly 2^64 - 1, the
unassigned sentinel. -/
theorem claim_C3_counterexample :
    ((fill_field_list_enum
        [EnumFieldChild.field
          [EnumTypeChild.name "A", EnumTypeChild.enum_assign 18446744073709551614],
         EnumFieldChild.field [EnumTypeChild.name "B"]]).map (fun e => e.value)) =
      [18446744073709551614, 18446744073709551615] ∧
    U64MAX = 18446744073709551615 := by
  constructor
  · rfl
  · rfl

/-- Every value produced by the assignment loop is a valid u64 when the
inputs are and the counter is. -/
theorem assign_loop_values_lt (l : List EnumEntry) (counter : Nat)
    (hc : counter < U64) (hl : ∀ e ∈ l, e.value < U64) :
    ∀ e ∈ assign_loop counter l, e.value < U64 := by
  induction l generalizing counter with
  | nil => intro e he; simp [assign_loop] at he
  | cons x rest ih =>
    intro e he
    by_cases hx : x.value = U64MAX
    · rw [assign_loop, if_pos hx] at he
      rcases List.mem_cons.mp he with he | he
      · simpa [he] using hc
      · exact ih ((counter + 1) % U64) (Nat.mod_lt _ (by norm_num [U64]))
          (fun e' he' => hl e' (List.mem_cons_of_mem _ he')) e he
    · rw [assign_loop, if_neg hx] at he
      rcases List.mem_cons.mp he with he | he
      · simpa [he] using hl x (List.mem_cons_self _ _)
      · exact ih ((x.value + 1) % U64) (Nat.mod_lt _ (by norm_num [U64]))
          (fun e' he' => hl e' (List.mem_cons_of_mem _ he')) e he

/-- When the counter keeps enough headroom (counter + remaining entries
stays at most u64::MAX) and every explicit value does too, no assigned
value ever reaches the sentinel. -/
theorem assign_loop_no_sentinel (l : List EnumEntry) (counter : Nat)
    (hc : counter + l.length ≤ U64MAX)
    (hl : ∀ e ∈ l, e.value = U64MAX ∨ e.value + l.length ≤ U64MAX) :
    ∀ e ∈ assign_loop counter l, e.value ≠ U64MAX := by
  induction l generalizing counter with
  | nil => intro e he; simp [assign_loop] at he
  | cons x rest ih =>
    have hlen : (x :: rest).length = rest.length + 1 := rfl
    intro e he
    by_cases hx : x.value = U64MAX
    · rw [assign_loop, if_pos hx] at he
      rcases List.mem_cons.mp he with he | he
      · rw [he]
        simp only []
        rw [hlen] at hc
        omega
      · have hmod : (counter + 1) % U64 = counter + 1 := by
          apply Nat.mod_eq_of_lt
          rw [hlen] at hc
          simp only [U64, U64MAX] at hc ⊢
          omega
        rw [hmod] at he
        refine ih (counter + 1) ?_ ?_ e he
        · rw [hlen] at hc; omega
        · intro e' he'
          rcases hl e' (List.mem_cons_of_mem _ he') with h | h
          · exact Or.inl h
          · rw [hlen] at h; omega
    · rw [assign_loop, if_neg hx] at he
      have hxv : x.value + (x :: rest).length ≤ U64MAX := by
        rcases hl x (List.mem_cons_self _ _) with h | h
        · exact absurd h hx
        · exact h
      rcases List.mem_cons.mp he with he | he
      · rw [he]
        rw [hlen] at hxv
        omega
      · have hmod : (x.value + 1) % U64 = x.value + 1 := by
          apply Nat.mod_eq_of_lt
          rw [hlen] at hxv
          simp only [U64, U64MAX] at hxv ⊢
          omega
        rw [hmod] at he
        refine ih (x.value + 1) ?_ ?_ e he
        · rw [hlen] at hxv; omega
        · intro e' he'
          rcases hl e' (List.mem_cons_of_mem _ he') with h | h
          · exact Or.inl h
          · rw [hlen] at h; omega

/-- C3 amended: after auto-assignment every entry holds a concrete value
below 2^64; and no entry's value equals the unassigned sentinel provided
the entry count is at most u64::MAX and every explicitly-valued entry
leaves headroom (value + entry count ≤ u64::MAX).  Without that headroom
the sentinel value itself can be assigned (see the counterexample). -/
theorem claim_C3_amended (l : List EnumEntry) (hvals : ∀ e ∈ l, e.value < U64) :
    (∀ e ∈ assign_loop 0 l, e.value < U64) ∧
    ((∀ e ∈ l, e.value = U64MAX ∨ e.value + l.length ≤ U64MAX) → l.length ≤ U64MAX →
      ∀ e ∈ assign_loop 0 l, e.value ≠ U64MAX) := by
  constructor
  · exact assign_loop_values_lt l 0 (by norm_num [U64]) hvals
  · intro hexp hlen
    exact assign_loop_no_sentinel l 0 (by omega) hexp

/-- Witness for the amended C3 at a concrete two-entry enum. -/
theorem claim_C3_amended_witness :
    (∀ e ∈ [EnumEntry.mk [] "A" 3, EnumEntry.mk [] "B" U64MAX], e.value < U64) ∧
    ((∀ e ∈ assign_loop 0 [EnumEntry.mk [] "A" 3, EnumEntry.mk [] "B" U64MAX],
        e.value < U64) ∧
      ((∀ e ∈ [EnumEntry.mk [] "A" 3, EnumEntry.mk [] "B" U64MAX],
          e.value = U64MAX ∨
            e.value + [EnumEntry.mk [] "A" 3, EnumEntry.mk [] "B" U64MAX].length ≤ U64MAX) →
        [EnumEntry.mk [] "A" 3, EnumEntry.mk [] "B" U64MAX].length ≤ U64MAX →
        ∀ e ∈ assign_loop 0 [EnumEntry.mk [] "A" 3, EnumEntry.mk [] "B" U64MAX],
          e.value ≠ U64MAX)) :=
  ⟨by decide, claim_C3_amended _ (by decide)⟩

/-- C6: the const_value branch of the chunk walk neither stores the
pending doc comments on the Const nor clears the buffer, so the comments
attach to the next declaration; the claimed behavior (const consumes the
buffer) fails on this input. -/
theorem claim_C6_const_doc_comments :
    (parse_string "t" "t"
        [Chunk.doc_comment "/// hi",
         Chunk.const_value [ConstChild.name "FOO", ConstChild.name_or_num "1"],
         Chunk.structdef [StructChild.name "S"]]).consts.map
        (fun c => (c.name, c.value, c.doc_comments)) =
      [("FOO", "1", ([] : List String))] ∧
    (parse_string "t" "t"
        [Chunk.doc_comment "/// hi",
         Chunk.const_value [ConstChild.name "FOO", ConstChild.name_or_num "1"],
         Chunk.structdef [StructChild.name "S"]]).structs.map
        (fun s => (s.name, s.doc_comments)) =
      [("S", ["hi"])] := by
  constructor
  · rfl
  · rfl

/-- C7: const-pointer syntax is resolved to the MutPointer modifier (the
source's const_ptr_exp arm assigns TypeModifier::MutPointer), so the
C-ABI rendering of such a variable carries no leading const qualifier. -/
theorem claim_C7_const_ptr_is_mut :
    (get_variable [VarChild.name "p", VarChild.const_ptr_exp, VarChild.vtype "u32"]
        []).type_modifier = TypeModifier.MutPointer ∧
    (get_variable [VarChild.name "p", VarChild.const_ptr_exp, VarChild.vtype "u32"]
        []).get_c_variable "" "" = "uint32_t*" := by
  constructor
  · rfl
  · decide

/-- Each step of the C argument loop appends to the accumulator. -/
theorem c_arg_step_append (s p : String) (acc : List String) (arg : Variable) :
    c_arg_step s p acc arg = acc ++ c_arg_step s p [] arg := by
  simp [c_arg_step]

/-- The C argument loop over any accumulator splits off the accumulator. -/
theorem c_sep_foldl_acc (s p : String) (l : List Variable) (acc : List String) :
    l.foldl (c_arg_step s p) acc = acc ++ l.foldl (c_arg_step s p) [] := by
  induction l generalizing acc with
  | nil => simp
  | cons v rest ih =>
    rw [List.foldl_cons, List.foldl_cons, ih (c_arg_step s p acc v),
      ih (c_arg_step s p [] v), c_arg_step_append, List.append_assoc]

/-- Rendering a cons argument list renders the head's pieces then the tail. -/
theorem c_sep_args_cons (s p : String) (v : Variable) (rest : List Variable)
    (f g : Function) (hf : f.function_args = v :: rest) (hg : g.function_args = rest) :
    f.get_c_separated_arguments s p =
      c_arg_step s p [] v ++ g.get_c_separated_arguments s p := by
  rw [Function.get_c_separated_arguments, Function.get_c_separated_arguments, hf, hg,
    List.foldl_cons, c_sep_foldl_acc, c_arg_step_append]
  try simp

/-- C8 counterexample: an argument named "va_args" whose declared type is
not "VA_ARGS" still renders as the ellipsis (the source's normal-path
condition conjoins the two inequalities, so either name or type alone
triggers "..."). -/
theorem claim_C8_counterexample :
    Function.get_c_separated_arguments
        { Function.default with
            function_args :=
              [{ Variable.default with
                  name := "va_args", type_name := "i32",
                  vtype := VariableType.Primitive }] } "" "" = ["..."] ∧
    Function.get_c_separated_arguments
        { Function.default with
            function_args :=
              [{ Variable.default with
                  name := "x", type_name := "VA_ARGS",
                  vtype := VariableType.Regular }] } "" "" = ["..."] := by
  constructor
  · rfl
  · rfl

/-- C8 amended: a non-string argument without array shape renders as the
variadic ellipsis exactly when its name is "va_args" OR its declared type
name is "VA_ARGS"; otherwise it renders as an ordinary typed parameter. -/
theorem claim_C8_amended (v : Variable) (rest : List Variable) (s p : String)
    (hstr : v.vtype ≠ VariableType.Str) (harr : v.array = Option.none) :
    Function.get_c_separated_arguments
        { Function.default with function_args := v :: rest } s p =
      (if v.name = "va_args" ∨ v.type_name = "VA_ARGS" then "..."
       else v.get_c_variable s p ++ " " ++ v.name) ::
        Function.get_c_separated_arguments
          { Function.default with function_args := rest } s p := by
  rw [c_sep_args_cons s p v rest
    { Function.default with function_args := v :: rest }
    { Function.default with function_args := rest } rfl rfl]
  have hstep : c_arg_pieces s p v =
      [if v.name = "va_args" ∨ v.type_name = "VA_ARGS" then "..."
       else v.get_c_variable s p ++ " " ++ v.name] := by
    by_cases hcond : v.name = "va_args" ∨ v.type_name = "VA_ARGS"
    · have hcond' : ¬(v.name ≠ "va_args" ∧ v.type_name ≠ "VA_ARGS") := by tauto
      cases hv : v.vtype <;> try (exact absurd hv hstr)
      all_goals simp [c_arg_pieces, hv, harr, hcond, hcond']
    · have hcond' : v.name ≠ "va_args" ∧ v.type_name ≠ "VA_ARGS" := by tauto
      cases hv : v.vtype <;> try (exact absurd hv hstr)
      all_goals simp [c_arg_pieces, hv, harr, hcond, hcond']
  rw [c_arg_step, List.nil_append, hstep]
  rfl

/-- Witness for the amended C8 at a concrete ordinary argument. -/
theorem claim_C8_amended_witness :
    ({ Variable.default with
        name := "a", type_name := "i32",
        vtype := VariableType.Primitive } : Variable).vtype ≠ VariableType.Str ∧
    ({ Variable.default with
        name := "a", type_name := "i32",
        vtype := VariableType.Primitive } : Variable).array = Option.none ∧
    Function.get_c_separated_arguments
        { Function.default with
            function_args :=
              [{ Variable.default with
                  name := "a", type_name := "i32",
                  vtype := VariableType.Primitive }] } "" "" =
      (if ({ Variable.default with
              name := "a", type_name := "i32",
              vtype := VariableType.Primitive } : Variable).name = "va_args" ∨
          ({ Variable.default with
              name := "a", type_name := "i32",
              vtype := VariableType.Primitive } : Variable).type_name = "VA_ARGS" then "..."
       else ({ Variable.default with
                name := "a", type_name := "i32",
                vtype := VariableType.Primitive } : Variable).get_c_variable "" "" ++ " " ++
          ({ Variable.default with
              name := "a", type_name := "i32",
              vtype := VariableType.Primitive } : Variable).name) ::
        Function.get_c_separated_arguments
          { Function.default with function_args := [] } "" "" :=
  ⟨by decide, rfl, claim_C8_amended _ [] "" "" (by decide) rfl⟩

/-- C9 counterexample: a string-classified Unsized array argument renders
as a single const char* parameter (the Str arm fires before the array
shape is examined), not as a pointer plus _size pair. -/
theorem claim_C9_counterexample :
    Function.get_c_separated_arguments
        { Function.default with
            function_args :=
              [{ Variable.default with
                  name := "s", type_name := "String", vtype := VariableType.Str,
                  array := some ArrayType.Unsized }] } "" "" = ["const char* s"] ∧
    (["const char* s"] : List String).length = 1 := by
  constructor
  · rfl
  · rfl

/-- C9 amended: an Unsized array always expands to a pointer plus a
`_size` sibling for struct fields (any classification), and for non-string
function arguments; a string-classified argument instead collapses to a
single const char* parameter regardless of its array shape. -/
theorem claim_C9_amended (v : Variable) (rest : List Variable) (s p : String) :
    (v.array = some ArrayType.Unsized →
      v.get_c_struct_variable p =
        "    " ++ v.get_c_variable "" p ++ "* " ++ v.name ++ ";\n" ++
          "    uint64_t " ++ v.name ++ "_size;") ∧
    (v.array = some ArrayType.Unsized → v.vtype ≠ VariableType.Str →
      Function.get_c_separated_arguments
          { Function.default with function_args := v :: rest } s p =
        (v.get_c_variable s p ++ "* " ++ v.name) ::
          ("uint64_t " ++ v.name ++ "_size") ::
            Function.get_c_separated_arguments
              { Function.default with function_args := rest } s p) ∧
    (v.vtype = VariableType.Str →
      Function.get_c_separated_arguments
          { Function.default with function_args := v :: rest } s p =
        ("const char* " ++ v.name) ::
          Function.get_c_separated_arguments
            { Function.default with function_args := rest } s p) := by
  refine ⟨fun harr => ?_, fun harr hstr => ?_, fun hstr => ?_⟩
  · rw [Variable.get_c_struct_variable, harr]
  · rw [c_sep_args_cons s p v rest
      { Function.default with function_args := v :: rest }
      { Function.default with function_args := rest } rfl rfl]
    have hstep : c_arg_pieces s p v =
        [v.get_c_variable s p ++ "* " ++ v.name, "uint64_t " ++ v.name ++ "_size"] := by
      cases hv : v.vtype <;> try (exact absurd hv hstr)
      all_goals simp [c_arg_pieces, hv, harr]
    rw [c_arg_step, List.nil_append, hstep]
    rfl
  · rw [c_sep_args_cons s p v rest
      { Function.default with function_args := v :: rest }
      { Function.default with function_args := rest } rfl rfl]
    have hstep : c_arg_pieces s p v = ["const char* " ++ v.name] := by
      simp [c_arg_pieces, hstr]
    rw [c_arg_step, List.nil_append, hstep]
    rfl

/-- Witness for the amended C9 at a concrete Unsized i32 array variable. -/
theorem claim_C9_amended_witness :
    ({ Variable.default with
        name := "xs", type_name := "i32", vtype := VariableType.Primitive,
        array := some ArrayType.Unsized } : Variable).array = some ArrayType.Unsized ∧
    ({ Variable.default with
        name := "xs", type_name := "i32", vtype := VariableType.Primitive,
        array := some ArrayType.Unsized } : Variable).get_c_struct_variable "" =
      "    " ++
        ({ Variable.default with
            name := "xs", type_name := "i32", vtype := VariableType.Primitive,
            array := some ArrayType.Unsized } : Variable).get_c_variable "" "" ++
        "* " ++ "xs" ++ ";\n" ++ "    uint64_t " ++ "xs" ++ "_size;" ∧
    Function.get_c_separated_arguments
        { Function.default with
            function_args :=
              [{ Variable.default with
                  name := "xs", type_name := "i32", vtype := VariableType.Primitive,
                  array := some ArrayType.Unsized }] } "" "" =
      (({ Variable.default with
            name := "xs", type_name := "i32", vtype := VariableType.Primitive,
            array := some ArrayType.Unsized } : Variable).get_c_variable "" "" ++
          "* " ++ "xs") ::
        ("uint64_t " ++ "xs" ++ "_size") ::
          Function.get_c_separated_arguments
            { Function.default with function_args := [] } "" "" :=
  ⟨rfl, (claim_C9_amended _ [] "" "").1 rfl,
    (claim_C9_amended _ [] "" "").2.1 rfl (by decide)⟩

/-- Hitting any _MANUAL_C const whose substituted text is shorter than two
characters makes the manual writer panic (modelled as none), whatever was
accumulated before. -/
theorem write_loop_none (pfx : String) (l : List Const) :
    ∀ acc : List Char,
      (∃ c ∈ l, c.name = "_MANUAL_C" ∧
        (str_replace c.value "{CPrefix}" pfx).data.length < 2) →
      write_c_manual_loop pfx acc l = Option.none := by
  induction l with
  | nil => intro acc h; simp at h
  | cons c rest ih =>
    intro acc h
    rcases h with ⟨c', hc', hname, hlen⟩
    rcases List.mem_cons.mp hc' with rfl | hmem
    · rw [write_c_manual_loop, if_neg (by simp [hname]), if_pos hlen]
    · by_cases hn : c.name ≠ "_MANUAL_C"
      · rw [write_c_manual_loop, if_pos hn]
        exact ih acc ⟨c', hmem, hname, hlen⟩
      · rw [write_c_manual_loop, if_neg hn]
        by_cases hl : (str_replace c.value "{CPrefix}" pfx).data.length < 2
        · rw [if_pos hl]
        · rw [if_neg hl]
          exact ih _ ⟨c', hmem, hname, hlen⟩

/-- When every _MANUAL_C const has at least two substituted characters,
the manual writer emits, after the accumulator, exactly the newline-framed
middle of each substituted _MANUAL_C value, in order, skipping every other
const. -/
theorem write_loop_some (pfx : String) (l : List Const) :
    ∀ acc : List Char,
      (∀ c ∈ l, c.name = "_MANUAL_C" →
        2 ≤ (str_replace c.value "{CPrefix}" pfx).data.length) →
      write_c_manual_loop pfx acc l =
        some ⟨acc ++ (l.filterMap (fun c =>
          if c.name = "_MANUAL_C" then
            some ('\n' :: ((str_replace c.value "{CPrefix}" pfx).data.drop 1).dropLast
              ++ ['\n'])
          else Option.none)).flatten⟩ := by
  induction l with
  | nil => intro acc _; simp [write_c_manual_loop]
  | cons c rest ih =>
    intro acc h
    by_cases hn : c.name = "_MANUAL_C"
    · have hlen := h c (List.mem_cons_self _ _) hn
      rw [write_c_manual_loop, if_neg (by simp [hn]), if_neg (by omega),
        ih _ (fun c' hc' => h c' (List.mem_cons_of_mem _ hc'))]
      rw [List.filterMap_cons]
      simp [hn, List.append_assoc]
    · rw [write_c_manual_loop, if_pos hn,
        ih _ (fun c' hc' => h c' (List.mem_cons_of_mem _ hc'))]
      rw [List.filterMap_cons]
      simp only [if_neg hn]

/-- C10: write_c_manual processes exactly the consts named "_MANUAL_C",
substitutes the C prefix for "{CPrefix}" in their value, strips the first
and last character of the result framed by newlines, and panics (none)
whenever a substituted text has fewer than two characters. -/
theorem claim_C10_write_c_manual (d : ApiDef) (pfx : String) :
    ((∃ c ∈ d.consts, c.name = "_MANUAL_C" ∧
        (str_replace c.value "{CPrefix}" pfx).data.length < 2) →
      d.write_c_manual pfx = Option.none) ∧
    ((∀ c ∈ d.consts, c.name = "_MANUAL_C" →
        2 ≤ (str_replace c.value "{CPrefix}" pfx).data.length) →
      d.write_c_manual pfx =
        some ⟨(d.consts.filterMap (fun c =>
          if c.name = "_MANUAL_C" then
            some ('\n' :: ((str_replace c.value "{CPrefix}" pfx).data.drop 1).dropLast
              ++ ['\n'])
          else Option.none)).flatten⟩) :=
  ⟨fun h => write_loop_none pfx d.consts [] h,
   fun h => by simpa using write_loop_some pfx d.consts [] h⟩

/-- Witness for C10: one ordinary const is skipped and one manual const
is substituted and stripped; a second application shows the panic case on
an empty manual value. -/
theorem claim_C10_witness :
    ((∀ c ∈ ({ ApiDef.default with
        consts := [Const.mk [] "OTHER" "xyz",
          Const.mk [] "_MANUAL_C" "\"void {CPrefix}go();\""] } : ApiDef).consts,
        c.name = "_MANUAL_C" →
        2 ≤ (str_replace c.value "{CPrefix}" "Fb").data.length) ∧
      ({ ApiDef.default with
        consts := [Const.mk [] "OTHER" "xyz",
          Const.mk [] "_MANUAL_C" "\"void {CPrefix}go();\""] } : ApiDef).write_c_manual
          "Fb" = some "\nvoid Fbgo();\n") ∧
    ((∃ c ∈ ({ ApiDef.default with
        consts := [Const.mk [] "_MANUAL_C" ""] } : ApiDef).consts,
        c.name = "_MANUAL_C" ∧
          (str_replace c.value "{CPrefix}" "Fb").data.length < 2) ∧
      ({ ApiDef.default with
        consts := [Const.mk [] "_MANUAL_C" ""] } : ApiDef).write_c_manual "Fb" =
        Option.none) :=
  ⟨⟨by decide, by
      rw [(claim_C10_write_c_manual _ "Fb").2 (by decide)]
      rfl⟩,
   ⟨⟨Const.mk [] "_MANUAL_C" "", by decide, by decide, by decide⟩,
    (claim_C10_write_c_manual _ "Fb").1
      ⟨Const.mk [] "_MANUAL_C" "", by decide, by decide, by decide⟩⟩⟩

/-- C5: the second pass changes exactly the classification of struct
function arguments whose raw type name is in the enum name table (enum
names plus nonempty flags names); filenames, mods, callbacks, enums,
types, unions, consts, struct fields/attributes and every other function
and argument component are left unchanged. -/
theorem claim_C5_second_pass_frame (api_defs : List ApiDef) :
    (second_pass api_defs).map (fun d => d.filename) =
      api_defs.map (fun d => d.filename) ∧
    (second_pass api_defs).map (fun d => d.base_filename) =
      api_defs.map (fun d => d.base_filename) ∧
    (second_pass api_defs).map (fun d => d.mods) = api_defs.map (fun d => d.mods) ∧
    (second_pass api_defs).map (fun d => d.callbacks) =
      api_defs.map (fun d => d.callbacks) ∧
    (second_pass api_defs).map (fun d => d.enums) = api_defs.map (fun d => d.enums) ∧
    (second_pass api_defs).map (fun d => d.types) = api_defs.map (fun d => d.types) ∧
    (second_pass api_defs).map (fun d => d.unions) = api_defs.map (fun d => d.unions) ∧
    (second_pass api_defs).map (fun d => d.consts) = api_defs.map (fun d => d.consts) ∧
    (second_pass api_defs).map (fun d => d.structs.map (fun s =>
        (s.name, s.def_file, s.doc_comments, s.vars, s.attributes, s.traits,
          s.derives))) =
      api_defs.map (fun d => d.structs.map (fun s =>
        (s.name, s.def_file, s.doc_comments, s.vars, s.attributes, s.traits,
          s.derives))) ∧
    (second_pass api_defs).map (fun d => d.structs.map (fun s =>
        s.functions.map (fun f =>
          (f.name, f.doc_comments, f.def_file, f.return_val, f.func_type)))) =
      api_defs.map (fun d => d.structs.map (fun s =>
        s.functions.map (fun f =>
          (f.name, f.doc_comments, f.def_file, f.return_val, f.func_type)))) ∧
    (second_pass api_defs).map (fun d => d.structs.map (fun s =>
        s.functions.map (fun f => f.function_args))) =
      api_defs.map (fun d => d.structs.map (fun s =>
        s.functions.map (fun f => f.function_args.map (fun a =>
          if (enum_name_table api_defs).contains a.type_name then
            { a with vtype := VariableType.Enum }
          else a)))) := by
  refine ⟨?_, ?_, ?_, ?_, ?_, ?_, ?_, ?_, ?_, ?_, ?_⟩ <;>
    simp [second_pass, upgrade_arg, List.map_map, Function.comp]

/-- C4 counterexample: a parsed callback is assigned the Static function
type, yet its argument list starts with the implicit "self" receiver
(the receiver is injected by get_variable_list before the callbackdef
branch overwrites the function type). -/
theorem claim_C4_counterexample :
    (parse_string "x" "x"
        [Chunk.callbackdef
          [CbChild.function [FnChild.name "cb", FnChild.varlist []]]]).callbacks.map
        (fun f => (f.name, f.func_type, f.function_args.map (fun a => (a.name, a.vtype)))) =
      [("cb", FunctionType.Static, [("self", VariableType.SelfType)])] := by
  rfl

/-- Folding get_function's step over children without a parameter list
leaves the argument list untouched and accumulates the static flag. -/
theorem fn_fold_no_varlist (l : List FnChild) :
    ∀ (st : Bool) (f : Function), no_varlist l = true →
      ((l.foldl get_function_step (st, f)).2.function_args = f.function_args ∧
        (l.foldl get_function_step (st, f)).1 = (st || has_static_marker l)) := by
  induction l with
  | nil => intro st f _; simp [has_static_marker]
  | cons c rest ih =>
    intro st f h
    have hrest : no_varlist rest = true := by
      cases c <;> simpa [no_varlist] using h
    cases c with
    | name s =>
      simpa [get_function_step, has_static_marker, List.any_cons] using ih st _ hrest
    | manual_typ =>
      simpa [get_function_step, has_static_marker, List.any_cons] using ih st _ hrest
    | static_typ =>
      simpa [get_function_step, has_static_marker, List.any_cons] using ih true _ hrest
    | varlist vs => simp [no_varlist] at h
    | retexp cs =>
      simpa [get_function_step, has_static_marker, List.any_cons] using ih st _ hrest
    | other =>
      simpa [get_function_step, has_static_marker, List.any_cons] using ih st _ hrest

/-- C4 amended: for a function node whose marker children precede its
parameter list (the DSL's `[static] [manual] name(args)` shape), the
resolved argument list starts with the implicit "self" receiver exactly
when no static marker is present; and a callback — although assigned the
Static function type by the callbackdef branch — still carries the
implicit receiver as its first argument. -/
theorem claim_C4_amended (doc : List String) (pre post : List FnChild)
    (vs : List (List VarChild)) (hpre : no_varlist pre = true)
    (hpost : no_varlist post = true) (hpsm : has_static_marker post = false) :
    ((get_function (pre ++ FnChild.varlist vs :: post) doc).function_args =
      (if has_static_marker pre = true then [] else [self_var]) ++
        vs.map (fun v => get_variable v [])) ∧
    (has_static_marker pre = false →
      ({ fill_callback [CbChild.function (pre ++ FnChild.varlist vs :: post)] doc with
          func_type := FunctionType.Static } : Function).func_type =
          FunctionType.Static ∧
      ({ fill_callback [CbChild.function (pre ++ FnChild.varlist vs :: post)] doc with
          func_type := FunctionType.Static } : Function).function_args =
        self_var :: vs.map (fun v => get_variable v [])) := by
  have hmain : (get_function (pre ++ FnChild.varlist vs :: post) doc).function_args =
      (if has_static_marker pre = true then [] else [self_var]) ++
        vs.map (fun v => get_variable v []) := by
    rw [get_function, List.foldl_append, List.foldl_cons]
    set f0 : Function := { Function.default with doc_comments := doc }
    obtain ⟨hargs1, hflag1⟩ := fn_fold_no_varlist pre false f0 hpre
    set s1 := pre.foldl get_function_step (false, f0)
    obtain ⟨hargs2, _⟩ := fn_fold_no_varlist post s1.1
      { s1.2 with function_args := get_variable_list vs s1.1 } hpost
    have hstep : get_function_step s1 (FnChild.varlist vs) =
        (s1.1, { s1.2 with function_args := get_variable_list vs s1.1 }) := rfl
    rw [hstep, hargs2]
    simp only [hflag1, Bool.false_or] at *
    cases hsm : has_static_marker pre with
    | false => simp [get_variable_list, hsm, hflag1]
    | true => simp [get_variable_list, hsm, hflag1]
  refine ⟨hmain, fun hnostatic => ⟨rfl, ?_⟩⟩
  have hcb : fill_callback [CbChild.function (pre ++ FnChild.varlist vs :: post)] doc =
      get_function (pre ++ FnChild.varlist vs :: post) doc := rfl
  show (fill_callback [CbChild.function (pre ++ FnChild.varlist vs :: post)] doc).function_args = _
  rw [hcb, hmain, hnostatic]
  rfl

/-- Witness for the amended C4: a static function node keeps only its
declared parameter. -/
theorem claim_C4_amended_witness :
    no_varlist [FnChild.static_typ] = true ∧ no_varlist [] = true ∧
    has_static_marker [] = false ∧
    ((get_function
        ([FnChild.static_typ] ++
          FnChild.varlist [[VarChild.name "a", VarChild.vtype "i32"]] :: []) []).function_args =
      (if has_static_marker [FnChild.static_typ] = true then [] else [self_var]) ++
        [[VarChild.name "a", VarChild.vtype "i32"]].map (fun v => get_variable v []) ∧
      (has_static_marker [FnChild.static_typ] = false →
        ({ fill_callback
            [CbChild.function
              ([FnChild.static_typ] ++
                FnChild.varlist [[VarChild.name "a", VarChild.vtype "i32"]] :: [])] [] with
            func_type := FunctionType.Static } : Function).func_type =
            FunctionType.Static ∧
        ({ fill_callback
            [CbChild.function
              ([FnChild.static_typ] ++
                FnChild.varlist [[VarChild.name "a", VarChild.vtype "i32"]] :: [])] [] with
            func_type := FunctionType.Static } : Function).function_args =
          self_var ::
            [[VarChild.name "a", VarChild.vtype "i32"]].map (fun v => get_variable v []))) :=
  ⟨rfl, rfl, rfl, claim_C4_amended [] [FnChild.static_typ] [] _ rfl rfl rfl⟩

/-- is_power_of_two holds exactly for the 64 u64 powers of two. -/
theorem is_power_of_two_iff (v : Nat) :
    is_power_of_two v = true ↔ ∃ k, k < 64 ∧ v = 2 ^ k := by
  simp [is_power_of_two, List.any_eq_true]

/-- A u64 power of two is at most 2^63. -/
theorem pow2_le_max (v : Nat) (h : is_power_of_two v = true) : v ≤ 2 ^ 63 := by
  obtain ⟨k, hk, rfl⟩ := (is_power_of_two_iff v).mp h
  exact Nat.pow_le_pow_right (by norm_num) (by omega)

/-- The power-of-two filter has the same length over entries and over
their extracted value list. -/
theorem length_filter_pow_val (l : List EnumEntry) :
    ((l.map (fun e => e.value)).filter (fun v => is_power_of_two v)).length =
      (l.filter (fun e => is_power_of_two e.value)).length := by
  rw [List.filter_map, List.length_map]
  exact congrArg List.length (List.filter_congr (fun x _ => rfl))

/-- The overlap loop detects exactly a duplicate among the seen values
and the remaining entry values. -/
theorem overlap_loop_iff (l : List EnumEntry) :
    ∀ seen : List Nat, seen.Nodup →
      (overlap_loop seen l = true ↔
        ¬ (seen ++ l.map (fun e => e.value)).Nodup) := by
  induction l with
  | nil => intro seen hs; simp [overlap_loop, hs]
  | cons e rest ih =>
    intro seen hs
    by_cases hc : e.value ∈ seen
    · rw [overlap_loop, if_pos (by simpa using hc)]
      simp only [true_iff, List.map_cons]
      intro hn
      rcases List.nodup_append.mp hn with ⟨_, _, hdisj⟩
      exact hdisj hc (List.mem_cons_self _ _)
    · rw [overlap_loop, if_neg (by simpa using hc)]
      have hs' : (e.value :: seen).Nodup := List.nodup_cons.mpr ⟨hc, hs⟩
      rw [ih (e.value :: seen) hs']
      have hperm : ((e.value :: seen) ++ rest.map (fun e => e.value)).Perm
          (seen ++ e.value :: rest.map (fun e => e.value)) := by
        simpa using
          (@List.perm_middle Nat e.value seen (rest.map (fun e => e.value))).symm
      rw [hperm.nodup_iff]
      simp

/-- The sequential loop succeeds exactly when every entry value is the
start plus its index, modulo 2^64. -/
theorem seq_loop_iff (l : List EnumEntry) :
    ∀ c : Nat, c < U64 →
      (seq_loop c l = true ↔
        ∀ i (h : i < l.length), (l.get ⟨i, h⟩).value = (c + i) % U64) := by
  induction l with
  | nil => intro c _; simp [seq_loop]
  | cons e rest ih =>
    intro c hc
    rw [seq_loop]
    by_cases he : c = e.value
    · rw [if_neg (by simpa using he)]
      rw [ih ((c + 1) % U64) (Nat.mod_lt _ (by norm_num [U64]))]
      constructor
      · intro h i hi
        cases i with
        | zero =>
          show e.value = (c + 0) % U64
          rw [Nat.add_zero, Nat.mod_eq_of_lt hc]
          exact he.symm
        | succ j =>
          have hj : j < rest.length := by simpa using hi
          have := h j hj
          rw [List.get_cons_succ]
          rw [this, Nat.mod_add_mod]
          congr 1
          omega
      · intro h j hj
        have := h (j + 1) (by simpa using hj)
        rw [List.get_cons_succ] at this
        rw [this]
        conv_rhs => rw [Nat.mod_add_mod]
        congr 1
        omega
    · rw [if_pos (by simpa using he)]
      simp only [Bool.false_eq_true, false_iff]
      intro hall
      have h0 : e.value = (c + 0) % U64 := hall 0 (by simp)
      rw [Nat.add_zero, Nat.mod_eq_of_lt hc] at h0
      exact he h0.symm

/-- Under the +1 chain, every element equals the head plus its index. -/
theorem chain_get (vals : List Nat)
    (hch : List.Chain' (fun x y => y = x + 1) vals) :
    ∀ i (h : i < vals.length) (h0 : 0 < vals.length),
      vals.get ⟨i, h⟩ = vals.get ⟨0, h0⟩ + i := by
  intro i
  induction i with
  | zero => intro h h0; simp
  | succ j ihj =>
    intro h h0
    have hj : j < vals.length := by omega
    have hstep := (List.chain'_iff_get.mp hch) j (by omega)
    calc vals.get ⟨j + 1, h⟩ = vals.get ⟨j, hj⟩ + 1 := hstep
      _ = vals.get ⟨0, h0⟩ + j + 1 := by rw [ihj hj h0]
      _ = vals.get ⟨0, h0⟩ + (j + 1) := by omega

/-- A +1 chain has no duplicate values. -/
theorem chain_nodup (vals : List Nat)
    (hch : List.Chain' (fun x y => y = x + 1) vals) : vals.Nodup := by
  cases hlen : vals with
  | nil => exact List.nodup_nil
  | cons v0 rest =>
    rw [← hlen]
    have h0 : 0 < vals.length := by rw [hlen]; simp
    apply List.nodup_iff_injective_get.mpr
    intro i j hij
    rw [chain_get vals hch i.1 i.2 h0, chain_get vals hch j.1 j.2 h0] at hij
    exact Fin.ext (by omega)

set_option maxRecDepth 4000 in
/-- Among any m < 127 consecutive naturals starting at 0, at most
(m+1)/2 are powers of two. -/
theorem pot_range_bound : ∀ m, m < 127 →
    2 * ((List.range m).countP (fun v => is_power_of_two v)) ≤ m + 1 := by
  decide

/-- A wrapping, non-duplicating sequential run has at most half its
values powers of two: with fewer than 128 entries the pre-wrap segment
sits in the top 126 u64 values (no powers of two there) and the post-wrap
segment is 0,1,2,…, which holds only logarithmically many powers of two;
with 128 or more entries the at most 64 distinct u64 powers of two are
already at most half. -/
theorem wrap_pot_bound (l : List EnumEntry) (hne : 0 < l.length)
    (hvals : ∀ e ∈ l, e.value < U64)
    (hpoint : ∀ i (h : i < l.length),
      (l.get ⟨i, h⟩).value = ((l.get ⟨0, hne⟩).value + i) % U64)
    (hnd : (l.map (fun e => e.value)).Nodup)
    (hnc : ¬ List.Chain' (fun x y => y = x + 1) (l.map (fun e => e.value))) :
    2 * ((l.map (fun e => e.value)).filter (fun v => is_power_of_two v)).length ≤
      l.length := by
  have ha_lt : (l.get ⟨0, hne⟩).value < U64 := hvals _ (List.get_mem l 0 hne)
  have hlenv : (l.map (fun e => e.value)).length = l.length := by simp
  have hvget : ∀ i (h : i < (l.map (fun e => e.value)).length),
      (l.map (fun e => e.value)).get ⟨i, h⟩ =
        ((l.get ⟨0, hne⟩).value + i) % U64 := by
    intro i h
    rw [List.get_map]
    exact hpoint i (by simpa using h)
  have hwrap : U64 ≤ (l.get ⟨0, hne⟩).value + (l.length - 1) := by
    by_contra hle
    push_neg at hle
    apply hnc
    apply List.chain'_iff_get.mpr
    intro i hi
    rw [hlenv] at hi
    have hii : i < (l.map (fun e => e.value)).length := by rw [hlenv]; omega
    have hi1 : i + 1 < (l.map (fun e => e.value)).length := by rw [hlenv]; omega
    rw [hvget i hii, hvget (i + 1) hi1]
    have hmi : (l.get ⟨0, hne⟩).value + i < U64 := by omega
    have hmi1 : (l.get ⟨0, hne⟩).value + (i + 1) < U64 := by omega
    rw [Nat.mod_eq_of_lt hmi, Nat.mod_eq_of_lt hmi1]
    omega
  have hw1 : 1 ≤ U64 - (l.get ⟨0, hne⟩).value := by omega
  have hwn : U64 - (l.get ⟨0, hne⟩).value ≤ l.length - 1 := by omega
  by_cases h128 : 128 ≤ l.length
  · have hfnd : ((l.map (fun e => e.value)).filter
        (fun v => is_power_of_two v)).Nodup := hnd.filter _
    have hsub : (l.map (fun e => e.value)).filter (fun v => is_power_of_two v) ⊆
        (List.range 64).map (2 ^ ·) := by
      intro x hx
      have hpx : is_power_of_two x = true := List.of_mem_filter hx
      obtain ⟨k, hk, rfl⟩ := (is_power_of_two_iff x).mp hpx
      exact List.mem_map.mpr ⟨k, List.mem_range.mpr hk, rfl⟩
    have hle64 := (hfnd.subperm hsub).length_le
    rw [List.length_map, List.length_range] at hle64
    omega
  · push_neg at h128
    have hp63 : (2 : Nat) ^ 63 = 9223372036854775808 := by norm_num
    have hvals_eq : l.map (fun e => e.value) =
        (List.range l.length).map
          (fun i => ((l.get ⟨0, hne⟩).value + i) % U64) := by
      apply List.ext_get
      · simp
      · intro i h1 h2
        rw [hvget i h1, List.get_map, List.get_range]
    have hnm : l.length =
        (U64 - (l.get ⟨0, hne⟩).value) +
          (l.length - (U64 - (l.get ⟨0, hne⟩).value)) := by omega
    have hcount : ((l.map (fun e => e.value)).filter
          (fun v => is_power_of_two v)).length =
        (List.range (l.length - (U64 - (l.get ⟨0, hne⟩).value))).countP
          (fun v => is_power_of_two v) := by
      rw [← List.countP_eq_length_filter, hvals_eq, List.countP_map]
      rw [congrArg List.range hnm, List.range_add, List.countP_append, List.countP_map]
      have hz : (List.range (U64 - (l.get ⟨0, hne⟩).value)).countP
          ((fun v => is_power_of_two v) ∘
            fun i => ((l.get ⟨0, hne⟩).value + i) % U64) = 0 := by
        apply List.countP_eq_zero.mpr
        intro i hi
        have hiw : i < U64 - (l.get ⟨0, hne⟩).value := List.mem_range.mp hi
        have hlt : (l.get ⟨0, hne⟩).value + i < U64 := by omega
        simp only [Function.comp_apply]
        rw [Nat.mod_eq_of_lt hlt]
        intro hcontra
        have hle63 := pow2_le_max _ hcontra
        simp only [U64] at *
        omega
      rw [hz, Nat.zero_add]
      apply List.countP_congr
      intro j hj
      have hjm : j < l.length - (U64 - (l.get ⟨0, hne⟩).value) :=
        List.mem_range.mp hj
      simp only [Function.comp_apply]
      have hrw : (l.get ⟨0, hne⟩).value + (U64 - (l.get ⟨0, hne⟩).value + j) =
          U64 + j := by omega
      rw [hrw, Nat.add_mod_left,
        Nat.mod_eq_of_lt (by simp only [U64] at *; omega : j < U64)]
    rw [hcount]
    have hb := pot_range_bound (l.length - (U64 - (l.get ⟨0, hne⟩).value)) (by omega)
    omega

/-- A +1 chain over in-range values passes the sequential loop. -/
theorem chain_seq_list (e0 : EnumEntry) (rest : List EnumEntry)
    (hvals : ∀ e ∈ e0 :: rest, e.value < U64)
    (hch : List.Chain' (fun x y => y = x + 1)
      ((e0 :: rest).map (fun e => e.value))) :
    seq_loop e0.value (e0 :: rest) = true := by
  have hc0 : e0.value < U64 := hvals e0 (List.mem_cons_self _ _)
  apply (seq_loop_iff (e0 :: rest) e0.value hc0).mpr
  intro i h
  have hlen : i < ((e0 :: rest).map (fun e => e.value)).length := by simpa using h
  have h0 : 0 < ((e0 :: rest).map (fun e => e.value)).length := by simp
  have hg := chain_get _ hch i hlen h0
  rw [List.get_map] at hg
  have hg0 : ((e0 :: rest).map (fun e => e.value)).get ⟨0, h0⟩ = e0.value := rfl
  rw [hg0] at hg
  have hlt : e0.value + i < U64 := by
    rw [← hg]
    exact hvals _ (List.get_mem _ _ _)
  rw [Nat.mod_eq_of_lt hlt]
  exact hg

/-- C1: the enum representation classifier returns Regular exactly on a
single unbroken run with no duplicate value; otherwise it returns
Bitflags exactly when a value is duplicated or more than half the values
are nonzero powers of two, and Regular in every remaining case; with the
four examples [0,1,2,3] Regular, [1,2,4,8] Bitflags, [0,0] Bitflags and
[0,1,5] Regular. -/
theorem claim_C1_enum_classifier :
    (∀ ed : Enum, (∀ e ∈ ed.entries, e.value < U64) →
      determine_enum_type ed = spec_enum_classifier ed) ∧
    determine_enum_type { Enum.default with entries :=
        [⟨[], "a", 0⟩, ⟨[], "b", 1⟩, ⟨[], "c", 2⟩, ⟨[], "d", 3⟩] } =
      EnumType.Regular ∧
    determine_enum_type { Enum.default with entries :=
        [⟨[], "a", 1⟩, ⟨[], "b", 2⟩, ⟨[], "c", 4⟩, ⟨[], "d", 8⟩] } =
      EnumType.Bitflags ∧
    determine_enum_type { Enum.default with entries :=
        [⟨[], "a", 0⟩, ⟨[], "b", 0⟩] } = EnumType.Bitflags ∧
    determine_enum_type { Enum.default with entries :=
        [⟨[], "a", 0⟩, ⟨[], "b", 1⟩, ⟨[], "c", 5⟩] } = EnumType.Regular := by
  refine ⟨?_, by decide, by decide, by decide, by decide⟩
  intro ed hvals
  rcases hent : ed.entries with _ | ⟨e0, rest⟩
  · simp [determine_enum_type, check_sequential, check_overlapping, overlap_loop,
      check_power_of_two, spec_enum_classifier, hent]
  · rw [hent] at hvals
    have hc0 : e0.value < U64 := hvals e0 (List.mem_cons_self _ _)
    have hov : check_overlapping ed = true ↔
        ¬ ((e0 :: rest).map (fun e => e.value)).Nodup := by
      rw [check_overlapping, hent]
      simpa using overlap_loop_iff (e0 :: rest) [] List.nodup_nil
    have hseq_unfold : check_sequential ed = seq_loop e0.value (e0 :: rest) := by
      simp [check_sequential, hent]
    have hpot : check_power_of_two ed = true ↔
        2 * ((e0 :: rest).filter (fun e => is_power_of_two e.value)).length >
          (e0 :: rest).length := by
      rw [check_power_of_two, hent]
      simp
    have hspec : spec_enum_classifier ed =
        (if List.Chain' (fun x y => y = x + 1)
              ((e0 :: rest).map (fun e => e.value)) ∧
            ((e0 :: rest).map (fun e => e.value)).Nodup then EnumType.Regular
         else if ¬ ((e0 :: rest).map (fun e => e.value)).Nodup ∨
            2 * (((e0 :: rest).map (fun e => e.value)).filter
              (fun v => is_power_of_two v)).length >
              ((e0 :: rest).map (fun e => e.value)).length then EnumType.Bitflags
         else EnumType.Regular) := by
      rw [spec_enum_classifier, hent]
    have hflen : (((e0 :: rest).map (fun e => e.value)).filter
        (fun v => is_power_of_two v)).length =
        ((e0 :: rest).filter (fun e => is_power_of_two e.value)).length :=
      length_filter_pow_val (e0 :: rest)
    by_cases hnd : ((e0 :: rest).map (fun e => e.value)).Nodup
    · have hov_false : check_overlapping ed = false := by
        cases h : check_overlapping ed with
        | false => rfl
        | true => exact absurd (hov.mp h) (not_not_intro hnd)
      by_cases hch : List.Chain' (fun x y => y = x + 1)
          ((e0 :: rest).map (fun e => e.value))
      · have hseq_true : check_sequential ed = true := by
          rw [hseq_unfold]
          exact chain_seq_list e0 rest hvals hch
        rw [hspec, if_pos ⟨hch, hnd⟩]
        simp [determine_enum_type, hseq_true, hov_false]
      · by_cases hseq : check_sequential ed = true
        · have hpoint := (seq_loop_iff (e0 :: rest) e0.value hc0).mp
            (hseq_unfold ▸ hseq)
          have hwb := wrap_pot_bound (e0 :: rest) (by simp) hvals hpoint hnd hch
          rw [hspec, if_neg (by tauto), if_neg ?hcnd]
          case hcnd =>
            push_neg
            refine ⟨hnd, ?_⟩
            simpa using hwb
          simp [determine_enum_type, hseq, hov_false]
        · have hseq_false : check_sequential ed = false :=
            Bool.not_eq_true _ ▸ (by simpa using hseq)
          rw [hspec, if_neg ?hfirst]
          case hfirst =>
            intro hcontra
            exact hseq ((hseq_unfold).trans
              (congrArg _ rfl) ▸ (hseq_unfold ▸
                (chain_seq_list e0 rest hvals hcontra.1 : _)))
          by_cases hp : check_power_of_two ed = true
          · rw [if_pos ?hsecond]
            case hsecond =>
              right
              have := hpot.mp hp
              rw [List.length_map, hflen]
              simpa using this
            simp [determine_enum_type, hseq_false, hp]
          · have hp_false : check_power_of_two ed = false := by
              cases h : check_power_of_two ed with
              | false => rfl
              | true => exact absurd h hp
            rw [if_neg ?hsecond]
            case hsecond =>
              push_neg
              refine ⟨hnd, ?_⟩
              have : ¬ (2 * ((e0 :: rest).filter
                  (fun e => is_power_of_two e.value)).length >
                    (e0 :: rest).length) := fun hcon => hp (hpot.mpr hcon)
              rw [List.length_map, hflen]
              omega
            simp [determine_enum_type, hseq_false, hp_false, hov_false]
    · have hov_true : check_overlapping ed = true := hov.mpr hnd
      rw [hspec, if_neg (by tauto), if_pos (Or.inl hnd)]
      simp [determine_enum_type, hov_true]

/-- Witness for C1 at the all-powers-of-two enum [1,2,4,8]. -/
theorem claim_C1_witness :
    (∀ e ∈ ({ Enum.default with entries :=
        [⟨[], "a", 1⟩, ⟨[], "b", 2⟩, ⟨[], "c", 4⟩, ⟨[], "d", 8⟩] } : Enum).entries,
      e.value < U64) ∧
    determine_enum_type { Enum.default with entries :=
        [⟨[], "a", 1⟩, ⟨[], "b", 2⟩, ⟨[], "c", 4⟩, ⟨[], "d", 8⟩] } =
      spec_enum_classifier { Enum.default with entries :=
        [⟨[], "a", 1⟩, ⟨[], "b", 2⟩, ⟨[], "c", 4⟩, ⟨[], "d", 8⟩] } :=
  ⟨by decide, claim_C1_enum_classifier.1 _ (by decide)⟩

end Apigen
